import Mathlib

/-!
Verification development for the ts-csv repository.

The definitions below are a shallow embedding of `src/reader.ts` and
`src/iterator.ts`: strings are lists of characters, the character-level
finite state machine is a function on an explicit reader state, fallible
operations return `Except String` carrying the thrown error message, and
JavaScript numbers are modelled as rationals.
-/

namespace TsCsv

/-- Quoting policy of a dialect (`Quoting` enum in `src/dialect.ts`). -/
inductive Quoting where
  | MINIMAL
  | ALL
  | NON_NUMERIC
  | NONE
deriving DecidableEq, Repr

/-- Modelled from the spec: `src/dialect.ts` is not among the provided source
files; the spec (section 3, DATA MODEL) lists the Dialect fields and their
defaults, which also match the expectations of `spec/reader.spec.ts`.
`quoteChar` and `escapeChar` are optional characters (`none` = unset). -/
structure Dialect where
  delimiter : Char
  quoteChar : Option Char
  escapeChar : Option Char
  doubleQuote : Bool
  skipInitialSpace : Bool
  lineTerminator : List Char
  quoting : Quoting
  strict : Bool
deriving DecidableEq, Repr

/-- Modelled from the spec: the `excel` preset, i.e. the documented defaults
(delimiter `,`, quote `"`, no escape character, doubleQuote, MINIMAL quoting,
non-strict). -/
def excel : Dialect :=
  { delimiter := ','
    quoteChar := some '"'
    escapeChar := none
    doubleQuote := true
    skipInitialSpace := false
    lineTerminator := ['\r', '\n']
    quoting := Quoting.MINIMAL
    strict := false }

/-- A CSV field value: `string|number` in `src/reader.ts`. JavaScript numbers
are modelled as rationals. -/
inductive Field where
  | str (s : String)
  | num (q : ℚ)
deriving DecidableEq, Repr

/-- A row of field values. -/
abbrev Row := List Field

/-- JavaScript whitespace characters stripped by `Number()` before parsing
(the ASCII fragment, which covers every string this development evaluates). -/
def isJsSpace (c : Char) : Bool :=
  c = ' ' || c = '\t' || c = '\n' || c = '\r' || c = '\x0b' || c = '\x0c' || c = '\xa0'

/-- Strip leading and trailing JavaScript whitespace. -/
def trimJs (cs : List Char) : List Char :=
  ((cs.dropWhile isJsSpace).reverse.dropWhile isJsSpace).reverse

/-- Value of a list of decimal digit characters. -/
def digitsToNat (ds : List Char) : ℕ :=
  ds.foldl (fun a c => 10 * a + (c.toNat - 48)) 0

/-- Digits of an exponent (all characters must be digits, at least one). -/
def jsExpDigits (cs : List Char) : Option ℤ :=
  if ¬cs.isEmpty ∧ cs.all Char.isDigit then some (digitsToNat cs : ℤ) else none

/-- Signed exponent of a decimal literal. -/
def jsExp (cs : List Char) : Option ℤ :=
  match cs with
  | '+' :: rest => jsExpDigits rest
  | '-' :: rest => (jsExpDigits rest).map Neg.neg
  | rest => jsExpDigits rest

/-- Unsigned decimal literal — digits, optional fraction, optional
exponent — returned as a decimal mantissa together with a power-of-ten
exponent, so that the value is `mantissa * 10 ^ exponent`. -/
def jsParseDec (cs : List Char) : Option (ℕ × ℤ) :=
  let intPart := cs.takeWhile Char.isDigit
  let rest := cs.dropWhile Char.isDigit
  match rest with
  | [] => if intPart.isEmpty then none else some (digitsToNat intPart, 0)
  | '.' :: rest2 =>
    let frac := rest2.takeWhile Char.isDigit
    let rest3 := rest2.dropWhile Char.isDigit
    if intPart.isEmpty ∧ frac.isEmpty then none
    else
      let m := digitsToNat (intPart ++ frac)
      match rest3 with
      | [] => some (m, -(frac.length : ℤ))
      | c :: rest4 =>
        if c = 'e' ∨ c = 'E' then
          (jsExp rest4).map (fun k => (m, k - (frac.length : ℤ)))
        else none
  | c :: rest2 =>
    if (c = 'e' ∨ c = 'E') ∧ ¬intPart.isEmpty then
      (jsExp rest2).map (fun k => (digitsToNat intPart, k))
    else none

/-- The rational `±mantissa * 10 ^ exponent`, assembled with `mkRat` over
integer arithmetic. -/
def ratOfParts (neg : Bool) (m : ℕ) (k : ℤ) : ℚ :=
  let n : ℤ := if neg then -(m : ℤ) else (m : ℤ)
  if 0 ≤ k then mkRat (n * ((10 ^ k.toNat : ℕ) : ℤ)) 1
  else mkRat n (10 ^ (-k).toNat)

/-- Model of the JavaScript `Number(string)` conversion used by
`Reader.saveField` (`Number(field)` followed by `isNaN`): trim whitespace,
the empty string converts to `0`, otherwise parse a signed finite decimal
literal; `none` stands for `NaN`. Hexadecimal/binary/octal and `Infinity`
forms never arise in the inputs this development evaluates and map to
`none`. -/
def jsNumber (cs : List Char) : Option ℚ :=
  let t := trimJs cs
  if t.isEmpty then some 0
  else
    match t with
    | '+' :: rest => (jsParseDec rest).map (fun p => ratOfParts false p.1 p.2)
    | '-' :: rest => (jsParseDec rest).map (fun p => ratOfParts true p.1 p.2)
    | rest => (jsParseDec rest).map (fun p => ratOfParts false p.1 p.2)

/-- The eight parser states of the reader FSM (`ParserState` enum). -/
inductive ParserState where
  | START_RECORD
  | START_FIELD
  | ESCAPED_CHAR
  | IN_FIELD
  | IN_QUOTED_FIELD
  | ESCAPE_IN_QUOTED_FIELD
  | QUOTE_IN_QUOTED_FIELD
  | AFTER_ESCAPED_CRLF
deriving DecidableEq, Repr

/-- Mutable state of a `Reader` instance: accumulated row, accumulated field
text, the numeric-field mark, the FSM state and the line counter. -/
structure ReaderState where
  fields : Row
  field : List Char
  numericField : Bool
  state : ParserState
  lineNum : ℕ
deriving DecidableEq, Repr

/-- The freshly constructed reader state (`fields = []`, `field = ''`,
`numericField = false`, `state = START_RECORD`, `lineNum = 0`). -/
def initState : ReaderState :=
  { fields := [], field := [], numericField := false
    state := ParserState.START_RECORD, lineNum := 0 }

/-- `endOfRecord` from `src/reader.ts`: a character terminating a record. -/
def endOfRecord (c : Char) : Bool :=
  c = '\n' || c = '\r'

/-- How a JavaScript template literal renders an optional character:
`undefined` interpolates as the string "undefined". -/
def optCharStr : Option Char → String
  | some c => String.mk [c]
  | none => "undefined"

/-- `Reader.error`: the thrown message carries the current line number. -/
def readerError (message : String) (lineNum : ℕ) : String :=
  message ++ ", at line " ++ toString lineNum

/-- `Reader.saveField`: finalize the accumulated field text. A field marked
numeric is converted with `Number`; a failed conversion throws. The field
buffer is emptied and the value appended to the current row. -/
def saveField (s : ReaderState) : Except String ReaderState :=
  if s.numericField then
    match jsNumber s.field with
    | none =>
      Except.error
        (readerError ("could not convert string to number: " ++ String.mk s.field) s.lineNum)
    | some q =>
      Except.ok { s with numericField := false, fields := s.fields ++ [Field.num q], field := [] }
  else
    Except.ok { s with fields := s.fields ++ [Field.str (String.mk s.field)], field := [] }

/-- The `START_FIELD` case of `Reader.processChar`. Factored out because the
`START_RECORD` case re-dispatches into it after setting the state. -/
def stepStartField (d : Dialect) (c : Char) (s : ReaderState) : Except String ReaderState :=
  if endOfRecord c then
    (saveField s).map fun s2 => { s2 with state := ParserState.START_RECORD }
  else if d.quoteChar = some c ∧ d.quoting ≠ Quoting.NONE then
    Except.ok { s with state := ParserState.IN_QUOTED_FIELD }
  else if d.escapeChar = some c then
    Except.ok { s with state := ParserState.ESCAPED_CHAR }
  else if c = ' ' ∧ d.skipInitialSpace then
    Except.ok s
  else if c = d.delimiter then
    saveField s
  else
    let s1 := if d.quoting = Quoting.NON_NUMERIC then { s with numericField := true } else s
    Except.ok { s1 with field := s1.field ++ [c], state := ParserState.IN_FIELD }

/-- The `IN_FIELD` case of `Reader.processChar`. Factored out because the
`AFTER_ESCAPED_CRLF` case re-dispatches into it after setting the state. -/
def stepInField (d : Dialect) (c : Char) (s : ReaderState) : Except String ReaderState :=
  if endOfRecord c then
    (saveField s).map fun s2 => { s2 with state := ParserState.START_RECORD }
  else if d.escapeChar = some c then
    Except.ok { s with state := ParserState.ESCAPED_CHAR }
  else if c = d.delimiter then
    (saveField s).map fun s2 => { s2 with state := ParserState.START_FIELD }
  else
    Except.ok { s with field := s.field ++ [c] }

/-- `Reader.processChar`: one FSM transition on character `c`.
`charsHasNext` is the value `chars.hasNext()` would report (more characters
remain on the current line) and `linesHasNext` the value `lines.hasNext()`
would report (more lines remain); `endOfData` in the source is the
conjunction of their negations. The source's re-dispatches (`START_RECORD`
as `START_FIELD`, `AFTER_ESCAPED_CRLF` as `IN_FIELD`) first assign the new
state and then re-run `processChar`, which is exactly running the factored
case on the updated state. -/
def processChar (d : Dialect) (c : Char) (charsHasNext linesHasNext : Bool)
    (s : ReaderState) : Except String ReaderState :=
  match s.state with
  | ParserState.START_RECORD =>
    if endOfRecord c then Except.ok s
    else stepStartField d c { s with state := ParserState.START_FIELD }
  | ParserState.START_FIELD => stepStartField d c s
  | ParserState.ESCAPED_CHAR =>
    if endOfRecord c then
      Except.ok { s with field := s.field ++ [c], state := ParserState.AFTER_ESCAPED_CRLF }
    else
      Except.ok { s with field := s.field ++ [c], state := ParserState.IN_FIELD }
  | ParserState.AFTER_ESCAPED_CRLF =>
    if endOfRecord c then Except.ok s
    else stepInField d c { s with state := ParserState.IN_FIELD }
  | ParserState.IN_FIELD => stepInField d c s
  | ParserState.IN_QUOTED_FIELD =>
    if ¬charsHasNext ∧ ¬linesHasNext then
      Except.ok s
    else if d.escapeChar = some c then
      Except.ok { s with state := ParserState.ESCAPE_IN_QUOTED_FIELD }
    else if d.quoteChar = some c ∧ d.quoting ≠ Quoting.NONE then
      if d.doubleQuote then
        Except.ok { s with state := ParserState.QUOTE_IN_QUOTED_FIELD }
      else
        Except.ok { s with state := ParserState.IN_FIELD }
    else
      Except.ok { s with field := s.field ++ [c] }
  | ParserState.ESCAPE_IN_QUOTED_FIELD =>
    Except.ok { s with field := s.field ++ [c], state := ParserState.IN_QUOTED_FIELD }
  | ParserState.QUOTE_IN_QUOTED_FIELD =>
    if d.quoting ≠ Quoting.NONE ∧ d.quoteChar = some c then
      Except.ok { s with field := s.field ++ [c], state := ParserState.IN_QUOTED_FIELD }
    else if c = d.delimiter then
      (saveField s).map fun s2 => { s2 with state := ParserState.START_FIELD }
    else if endOfRecord c then
      (saveField s).map fun s2 => { s2 with state := ParserState.START_RECORD }
    else if ¬d.strict then
      Except.ok { s with field := s.field ++ [c], state := ParserState.IN_FIELD }
    else
      Except.error
        (readerError
          ("\"" ++ String.mk [d.delimiter] ++ "\" expected after \"" ++ optCharStr d.quoteChar ++ "\"")
          s.lineNum)

/-- The per-character loop body of `Reader.next` over one consumed line:
each pulled character is first checked for a NUL byte (throwing
`line contains NULL byte` at the current line number), then fed to
`processChar`. `chars.hasNext()` reports whether characters remain after
the current one; `lines.hasNext()` is constant while the line is scanned
and is passed in as `linesHasNext`. -/
def processLine (d : Dialect) (linesHasNext : Bool) :
    List Char → ReaderState → Except String ReaderState
  | [], s => Except.ok s
  | c :: cs, s =>
    if c = '\x00' then
      Except.error (readerError "line contains NULL byte" s.lineNum)
    else
      match processChar d c (!cs.isEmpty) linesHasNext s with
      | Except.error e => Except.error e
      | Except.ok s2 => processLine d linesHasNext cs s2

/-- The `IteratorResult` returned by `Reader.next`. -/
structure NextRes where
  value : Row
  done : Bool
deriving DecidableEq, Repr

/-- `Reader.reset`: clear the accumulated row, return to `START_RECORD` and
clear the numeric mark. The `field` buffer and `lineNum` are untouched. -/
def resetState (s : ReaderState) : ReaderState :=
  { s with fields := [], state := ParserState.START_RECORD, numericField := false }

/-- The do-while loop of `Reader.next`, acting on the remaining line list.
When the lines are exhausted: with a pending field (non-empty buffer or
`IN_QUOTED_FIELD`) strict mode throws `unexpected end of data`, non-strict
mode finalizes the field and returns the row; otherwise the end marker
`{value: [], done: true}` is returned. Otherwise one line is consumed, the
line counter incremented, its characters processed, and the loop continues
until the FSM is back at `START_RECORD`, at which point the accumulated row
is returned (and the `fields` buffer cleared). Returns the iterator result,
the remaining lines and the updated reader state. -/
def nextLoop (d : Dialect) :
    List (List Char) → ReaderState → Except String (NextRes × List (List Char) × ReaderState)
  | [], s =>
    if s.field.length ≠ 0 ∨ s.state = ParserState.IN_QUOTED_FIELD then
      if d.strict then
        Except.error (readerError "unexpected end of data" s.lineNum)
      else
        (saveField s).map fun s2 =>
          ({ value := s2.fields, done := false }, [], { s2 with fields := [] })
    else
      Except.ok ({ value := [], done := true }, [], s)
  | line :: rest, s =>
    let s1 := { s with lineNum := s.lineNum + 1 }
    match processLine d (!rest.isEmpty) line s1 with
    | Except.error e => Except.error e
    | Except.ok s2 =>
      if s2.state = ParserState.START_RECORD then
        Except.ok ({ value := s2.fields, done := false }, rest, { s2 with fields := [] })
      else
        nextLoop d rest s2

/-- `Reader.next`: reset the per-row state, then run the line loop. -/
def readerNext (d : Dialect) (lines : List (List Char)) (s : ReaderState) :
    Except String (NextRes × List (List Char) × ReaderState) :=
  nextLoop d lines (resetState s)

/-- The constructor's newline adjustment: `source += '\n'` when the source is
non-empty and does not already end with a newline. -/
def appendNewline (s : List Char) : List Char :=
  if s ≠ [] ∧ s.getLast? ≠ some '\n' then s ++ ['\n'] else s

/-- `splitLines`: scan for the leftmost terminator (`\r\n` preferred over
`\r` over `\n` at the same position, as with the regex alternation), yield
each segment including its terminator; a final segment without terminator
is not yielded. `acc` is the text accumulated since the previous
terminator. -/
def splitLinesAux (acc : List Char) : List Char → List (List Char)
  | [] => []
  | '\r' :: '\n' :: rest => (acc ++ ['\r', '\n']) :: splitLinesAux [] rest
  | '\r' :: rest => (acc ++ ['\r']) :: splitLinesAux [] rest
  | '\n' :: rest => (acc ++ ['\n']) :: splitLinesAux [] rest
  | c :: rest => splitLinesAux (acc ++ [c]) rest

/-- `splitLines` from `src/reader.ts` on the whole source. -/
def splitLines (s : List Char) : List (List Char) :=
  splitLinesAux [] s

/-- `line.replace(/\r\n$/, '\n')`: rewrite a trailing CRLF to a lone LF. -/
def normalizeLine (l : List Char) : List Char :=
  match l.reverse with
  | '\n' :: '\r' :: rest => rest.reverse ++ ['\n']
  | _ => l

/-- The line list built by the `Reader` constructor: append a trailing
newline if needed, split into terminator-carrying lines, normalize each
trailing CRLF to LF. -/
def mkLines (source : List Char) : List (List Char) :=
  (splitLines (appendNewline source)).map normalizeLine

/-- Collect every row produced by repeated `Reader.next` calls, stopping at
the end marker, as `[...reader]` does. `fuel` bounds the number of calls;
`readAll` supplies enough fuel for any input. -/
def readAllAux (d : Dialect) : ℕ → List (List Char) → ReaderState → Except String (List Row)
  | 0, _, _ => Except.error "fuel exhausted"
  | fuel + 1, lines, s =>
    match readerNext d lines s with
    | Except.error e => Except.error e
    | Except.ok (res, rest, s2) =>
      if res.done then Except.ok []
      else
        match readAllAux d fuel rest s2 with
        | Except.error e => Except.error e
        | Except.ok rows => Except.ok (res.value :: rows)

/-- Parse a whole source string: construct the reader and collect its rows. -/
def readAll (d : Dialect) (source : String) : Except String (List Row) :=
  let lines := mkLines source.data
  readAllAux d (lines.length + 2) lines initState

/-- The lookahead iterator of `src/iterator.ts`: `it` is the remaining
underlying sequence, `nextValues` the lookahead buffer. -/
structure HNI (α : Type) where
  it : List α
  nextValues : List α
deriving DecidableEq, Repr

/-- `HasNextIterator.next()`: drain the buffer first (`shift`), otherwise
pull from the underlying iterator; `none` models `done: true`. -/
def HNI.next : HNI α → Option α × HNI α
  | ⟨it, v :: vs⟩ => (some v, ⟨it, vs⟩)
  | ⟨[], []⟩ => (none, ⟨[], []⟩)
  | ⟨x :: xs, []⟩ => (some x, ⟨xs, []⟩)

/-- `HasNextIterator.hasNext()`: report `true` at once when the buffer is
non-empty; otherwise pull via `next()` and, when a value arrived, push it
onto the buffer. Returns the reported Boolean and the updated iterator. -/
def HNI.hasNext (s : HNI α) : Bool × HNI α :=
  if !s.nextValues.isEmpty then (true, s)
  else
    match HNI.next s with
    | (none, s2) => (false, s2)
    | (some v, s2) => (true, ⟨s2.it, s2.nextValues ++ [v]⟩)

theorem HNI.next_measure {α : Type} {s s2 : HNI α} {v : α} (h : HNI.next s = (some v, s2)) :
    s2.it.length + s2.nextValues.length < s.it.length + s.nextValues.length := by
  rcases s with ⟨it, vs⟩
  cases vs with
  | cons w ws => simp only [HNI.next] at h; cases h; simp
  | nil =>
    cases it with
    | nil => simp [HNI.next] at h
    | cons x xs => simp only [HNI.next] at h; cases h; simp

/-- The sequence of values obtained by pulling `next()` until exhaustion:
the observable content of a lookahead iterator. -/
def HNI.drain (s : HNI α) : List α :=
  match h : HNI.next s with
  | (none, _) => []
  | (some v, s2) => v :: HNI.drain s2
termination_by s.it.length + s.nextValues.length
decreasing_by exact HNI.next_measure h

/-- A value stored in a record: a single field, or the array of surplus
values gathered under the rest key. -/
inductive RecordValue where
  | field (f : Field)
  | arr (l : List Field)
deriving DecidableEq, Repr

/-- `zip` from `src/reader.ts`: `a.map((v, i) => [v, b[i]])` — one pair per
element of `a`, the companion being `b`'s element at the same index, or
`undefined` (`none`) when `b` is shorter. -/
def zip : List α → List β → List (α × Option β)
  | [], _ => []
  | x :: xs, [] => (x, none) :: zip xs []
  | x :: xs, y :: ys => (x, some y) :: zip xs ys

/-- A single assignment into a JavaScript object under construction: a
repeated key keeps its original position and takes the new value, a fresh
key is appended. -/
def upsert [DecidableEq κ] (acc : List (κ × ν)) (kv : κ × ν) : List (κ × ν) :=
  if acc.any (fun p => p.1 = kv.1) then
    acc.map (fun p => if p.1 = kv.1 then kv else p)
  else
    acc ++ [kv]

/-- `Object.fromEntries`: build an object from key/value pairs, later pairs
overriding earlier ones with the same key. The object is modelled as an
association list in key insertion order. -/
def fromEntries [DecidableEq κ] (ps : List (κ × ν)) : List (κ × ν) :=
  ps.foldl upsert []

/-- Look a key up in an association list (first match). -/
def recLookup [DecidableEq κ] (k : κ) : List (κ × ν) → Option ν
  | [] => none
  | p :: ps => if p.1 = k then some p.2 else recLookup k ps

/-- A record produced by `recordReader`. JavaScript object keys are strings;
header fields stand for their string images here (the claims never use
numeric headers). A record value is `Option RecordValue` because `zip` pads
with `undefined` when the value list is shorter than the key list. -/
abbrev RecordT := List (Field × Option RecordValue)

/-- The body of the `recordReader` loop for one row: empty rows are skipped;
a row longer than the headers keeps its first `lh` values positionally and
gathers the surplus as an array under the rest key (`opts.restKey`,
rendering as the key "undefined" when absent); a row shorter than the
headers is extended to the header count with the rest value
(`opts.restVal`, defaulting to the empty string); an equal-length row maps
positionally. -/
def recordRow (headers : List Field) (restKey : Option String) (restVal : Option Field)
    (row : Row) : Option RecordT :=
  if row.length ≠ 0 then
    let lh := headers.length
    let lr := row.length
    if lh < lr then
      some (fromEntries (zip (headers ++ [Field.str (optStrStr restKey)])
        ((row.take lh).map RecordValue.field ++ [RecordValue.arr (row.drop lh)])))
    else if lh > lr then
      let restVal := match restVal with
        | none => Field.str ""
        | some v => v
      some (fromEntries (zip headers
        ((row ++ List.replicate (lh - lr) restVal).map RecordValue.field)))
    else
      some (fromEntries (zip headers (row.map RecordValue.field)))
  else none
where
  /-- How a possibly-undefined string renders as an object key. -/
  optStrStr : Option String → String
    | some s => s
    | none => "undefined"

/-- `recordReader`: headers come from `opts.fields` when supplied (even when
empty — an empty array is truthy in JavaScript), otherwise from the first
`next()` pull; every remaining row is mapped through the loop body. -/
def recordReaderModel (d : Dialect) (source : String) (fields : Option (List String))
    (restKey : Option String) (restVal : Option Field) : Except String (List RecordT) :=
  match readAll d source with
  | Except.error e => Except.error e
  | Except.ok rows =>
    let hr : List Field × List Row :=
      match fields with
      | some fs => (fs.map Field.str, rows)
      | none =>
        match rows with
        | [] => ([], [])
        | r :: rest => (r, rest)
    Except.ok (hr.2.filterMap (recordRow hr.1 restKey restVal))

/-- Feed a list of characters to the FSM, each with `charsHasNext = true`:
the shape the per-character loop takes on a proper prefix of a line (used
to state where the NUL-byte check fires). -/
def feedAll (d : Dialect) (linesHasNext : Bool) : List Char → ReaderState → Except String ReaderState
  | [], s => Except.ok s
  | c :: cs, s =>
    match processChar d c true linesHasNext s with
    | Except.error e => Except.error e
    | Except.ok s2 => feedAll d linesHasNext cs s2

/-! ## Shared lemmas -/

theorem saveField_ok {s s2 : ReaderState} (h : saveField s = Except.ok s2) :
    s2.lineNum = s.lineNum ∧ s2.state = s.state ∧ s2.field = [] ∧
    ∃ v, s2.fields = s.fields ++ [v] := by
  unfold saveField at h
  cases hn : s.numericField with
  | true =>
    rw [hn] at h
    cases hj : jsNumber s.field with
    | none => rw [hj] at h; simp at h
    | some q =>
      rw [hj] at h
      simp only [if_true, Except.ok.injEq] at h
      subst h
      simp
  | false =>
    rw [hn] at h
    simp only [Bool.false_eq_true, if_false, Except.ok.injEq] at h
    subst h
    simp

/-! ## Claim C2 -/

/-- Claim C2: while the parser state is `IN_QUOTED_FIELD`, if the current
character is the last character of the last remaining line (no next
character on the line and no next line), the character is absorbed — not
appended to the field and causing no state transition: the reader state is
returned unchanged. -/
theorem claim_C2 (d : Dialect) (c : Char) (s : ReaderState)
    (h : s.state = ParserState.IN_QUOTED_FIELD) :
    processChar d c false false s = Except.ok s := by
  rcases s with ⟨fs, fld, nf, st, ln⟩
  obtain rfl : st = ParserState.IN_QUOTED_FIELD := h
  rfl

/-- Witness for C2: a dangling quote character at true end of input is
silently absorbed in `IN_QUOTED_FIELD`. -/
theorem claim_C2_witness :
    processChar excel '"' false false
        { fields := [], field := [], numericField := false
          state := ParserState.IN_QUOTED_FIELD, lineNum := 1 } =
      Except.ok
        { fields := [], field := [], numericField := false
          state := ParserState.IN_QUOTED_FIELD, lineNum := 1 } :=
  claim_C2 excel '"'
    { fields := [], field := [], numericField := false
      state := ParserState.IN_QUOTED_FIELD, lineNum := 1 } rfl

/-! ## Claim C3 -/

/-- Claim C3: in state `QUOTE_IN_QUOTED_FIELD`, when the next character is
neither the quote character, the delimiter, nor an end-of-record character:
non-strict dialects append the character and move to `IN_FIELD`; strict
dialects fail with the message
`"<delimiter>" expected after "<quoteChar>", at line <n>`. -/
theorem claim_C3 (d : Dialect) (c : Char) (chn lhn : Bool) (s : ReaderState)
    (hst : s.state = ParserState.QUOTE_IN_QUOTED_FIELD)
    (hq : d.quoteChar ≠ some c) (hd : c ≠ d.delimiter) (he : endOfRecord c = false) :
    (d.strict = false →
      processChar d c chn lhn s =
        Except.ok { s with field := s.field ++ [c], state := ParserState.IN_FIELD }) ∧
    (d.strict = true →
      processChar d c chn lhn s =
        Except.error
          (readerError
            ("\"" ++ String.mk [d.delimiter] ++ "\" expected after \"" ++
              optCharStr d.quoteChar ++ "\"")
            s.lineNum)) := by
  rcases s with ⟨fs, fld, nf, st, ln⟩
  obtain rfl : st = ParserState.QUOTE_IN_QUOTED_FIELD := hst
  constructor <;> intro hs <;> simp [processChar, hq, hd, he, hs]

/-- Witness for C3: under a strict excel dialect, the character `x` after a
closing quote raises the malformed-quote error. -/
theorem claim_C3_witness :
    processChar { excel with strict := true } 'x' true true
        { fields := [], field := ['a'], numericField := false
          state := ParserState.QUOTE_IN_QUOTED_FIELD, lineNum := 1 } =
      Except.error "\",\" expected after \"\"\", at line 1" :=
  (claim_C3 { excel with strict := true } 'x' true true
    { fields := [], field := ['a'], numericField := false
      state := ParserState.QUOTE_IN_QUOTED_FIELD, lineNum := 1 }
    rfl (by decide) (by decide) (by decide)).2 rfl

/-! ## Claim C10 -/

/-- Claim C10: once the line sequence is exhausted with no pending field and
the state at `START_RECORD`, `next()` returns `{value: [], done: true}` —
the marker's value is the empty row — and calling `next()` again on the
resulting state returns the very same marker; the empty source produces an
empty line sequence, so its first call is already of this shape. -/
theorem claim_C10 (d : Dialect) (s : ReaderState)
    (hf : s.field = []) (_hst : s.state = ParserState.START_RECORD) :
    readerNext d [] s = Except.ok ({ value := [], done := true }, [], resetState s) ∧
    readerNext d [] (resetState s) =
      Except.ok ({ value := [], done := true }, [], resetState s) ∧
    mkLines ("".data) = [] := by
  rcases s with ⟨fs, fld, nf, st, ln⟩
  obtain rfl : fld = [] := hf
  exact ⟨rfl, rfl, rfl⟩

/-- Witness for C10: the exhausted reader keeps returning the end marker. -/
theorem claim_C10_witness :
    readerNext excel [] initState =
      Except.ok ({ value := [], done := true }, [], resetState initState) :=
  (claim_C10 excel initState rfl rfl).1

/-! ## Claim C1 -/

/-- Claim C1: if the line iteration is exhausted during `next()` while the
accumulated field text is non-empty or the state is `IN_QUOTED_FIELD`, a
strict dialect fails with `unexpected end of data, at line <n>` (`n` the
current line number); a non-strict dialect finalizes the pending field via
`saveField` — which appends it as the last field of the accumulated row —
and returns that row (`done: false`). In particular the truncated input
`a,"` parses to the single row `['a', '']` in non-strict mode and raises
the error at line 1 in strict mode. -/
theorem claim_C1 (d : Dialect) (s : ReaderState)
    (hpend : s.field ≠ [] ∨ s.state = ParserState.IN_QUOTED_FIELD) :
    (d.strict = true →
      nextLoop d [] s = Except.error (readerError "unexpected end of data" s.lineNum)) ∧
    (d.strict = false →
      nextLoop d [] s = (saveField s).map fun s2 =>
        ({ value := s2.fields, done := false }, [], { s2 with fields := [] })) ∧
    (∀ s2, saveField s = Except.ok s2 → ∃ v, s2.fields = s.fields ++ [v]) ∧
    readAll excel "a,\"" = Except.ok [[Field.str "a", Field.str ""]] ∧
    readAll { excel with strict := true } "a,\"" =
      Except.error "unexpected end of data, at line 1" := by
  have hg : s.field.length ≠ 0 ∨ s.state = ParserState.IN_QUOTED_FIELD := by
    rcases hpend with h | h
    · left; simpa using h
    · right; exact h
  refine ⟨?_, ?_, ?_, rfl, rfl⟩
  · intro hs
    simp only [nextLoop, if_pos hg, hs, if_true]
  · intro hs
    simp only [nextLoop, if_pos hg, hs, Bool.false_eq_true, if_false]
  · intro s2 h
    exact (saveField_ok h).2.2.2

/-- Witness for C1: with a pending quoted field and no lines left, the
strict excel dialect raises `unexpected end of data` at the current line. -/
theorem claim_C1_witness :
    nextLoop { excel with strict := true } []
        { fields := [Field.str "a"], field := [], numericField := false
          state := ParserState.IN_QUOTED_FIELD, lineNum := 1 } =
      Except.error (readerError "unexpected end of data" 1) :=
  (claim_C1 { excel with strict := true }
    { fields := [Field.str "a"], field := [], numericField := false
      state := ParserState.IN_QUOTED_FIELD, lineNum := 1 }
    (Or.inr rfl)).1 rfl

theorem drain_buf {α : Type} (it : List α) (v : α) (vs : List α) :
    HNI.drain ⟨it, v :: vs⟩ = v :: HNI.drain ⟨it, vs⟩ := by
  rw [HNI.drain]
  split <;> simp_all [HNI.next]

theorem drain_pull {α : Type} (x : α) (xs : List α) :
    HNI.drain ⟨x :: xs, []⟩ = x :: HNI.drain ⟨xs, []⟩ := by
  rw [HNI.drain]
  split <;> simp_all [HNI.next]

theorem drain_empty {α : Type} : HNI.drain (⟨[], []⟩ : HNI α) = [] := by
  rw [HNI.drain]
  split <;> simp_all [HNI.next]

theorem drain_eq {α : Type} (it vs : List α) :
    HNI.drain ⟨it, vs⟩ = vs ++ it := by
  induction vs with
  | cons v vs ih => rw [drain_buf, ih]; rfl
  | nil =>
    induction it with
    | nil => exact drain_empty
    | cons x xs ih2 => rw [drain_pull, ih2]; rfl

/-- Claim C9: `hasNext()` is idempotent and non-consuming — the drained value
sequence is unchanged by a `hasNext()` call and a repeated `hasNext()` call
returns the same answer and state — and `next()` after `hasNext()` returns
the cached head of the value sequence and leaves exactly its tail, so
interleaving never skips, duplicates or reorders an element. -/
theorem claim_C9 (α : Type) (s : HNI α) :
    (HNI.hasNext s).1 = !(HNI.drain s).isEmpty ∧
    HNI.drain (HNI.hasNext s).2 = HNI.drain s ∧
    HNI.hasNext ((HNI.hasNext s).2) = HNI.hasNext s ∧
    (HNI.next (HNI.hasNext s).2).1 = (HNI.drain s).head? ∧
    HNI.drain ((HNI.next (HNI.hasNext s).2).2) = (HNI.drain s).tail := by
  rcases s with ⟨it, vs⟩
  cases vs with
  | cons v vs => simp [HNI.hasNext, HNI.next, drain_eq]
  | nil =>
    cases it with
    | nil => simp [HNI.hasNext, HNI.next, drain_eq]
    | cons x xs => simp [HNI.hasNext, HNI.next, drain_eq]

theorem except_map_ok {α β ε : Type} {f : α → β} {x : Except ε α} {b : β}
    (h : x.map f = Except.ok b) : ∃ a, x = Except.ok a ∧ b = f a := by
  cases x with
  | error e => simp [Except.map] at h
  | ok a =>
    simp [Except.map] at h
    exact ⟨a, rfl, h.symm⟩

theorem stepStartField_lineNum {d : Dialect} {c : Char} {s s2 : ReaderState}
    (h : stepStartField d c s = Except.ok s2) : s2.lineNum = s.lineNum := by
  unfold stepStartField at h
  split_ifs at h with h1 h2 h3 h4 h5 h6
  · obtain ⟨s3, hs3, rfl⟩ := except_map_ok h
    exact (saveField_ok hs3).1
  · cases h; rfl
  · cases h; rfl
  · cases h; rfl
  · exact (saveField_ok h).1
  · cases h; rfl
  · cases h; rfl

theorem stepInField_lineNum {d : Dialect} {c : Char} {s s2 : ReaderState}
    (h : stepInField d c s = Except.ok s2) : s2.lineNum = s.lineNum := by
  unfold stepInField at h
  split_ifs at h with h1 h2 h3
  · obtain ⟨s3, hs3, rfl⟩ := except_map_ok h
    exact (saveField_ok hs3).1
  · cases h; rfl
  · obtain ⟨s3, hs3, rfl⟩ := except_map_ok h
    exact (saveField_ok hs3).1
  · cases h; rfl

theorem processChar_lineNum {d : Dialect} {c : Char} {b1 b2 : Bool} {s s2 : ReaderState}
    (h : processChar d c b1 b2 s = Except.ok s2) : s2.lineNum = s.lineNum := by
  rcases s with ⟨fs, fld, nf, st, ln⟩
  cases st <;> simp only [processChar] at h
  case START_RECORD =>
    split_ifs at h with h1
    · cases h; rfl
    · have h2 := stepStartField_lineNum h
      exact h2
  case START_FIELD => exact stepStartField_lineNum h
  case ESCAPED_CHAR => split_ifs at h with h1 <;> (cases h; rfl)
  case AFTER_ESCAPED_CRLF =>
    split_ifs at h with h1
    · cases h; rfl
    · have h2 := stepInField_lineNum h
      exact h2
  case IN_FIELD => exact stepInField_lineNum h
  case IN_QUOTED_FIELD => split_ifs at h with h1 h2 h3 h4 <;> (cases h; rfl)
  case ESCAPE_IN_QUOTED_FIELD => cases h <;> rfl
  case QUOTE_IN_QUOTED_FIELD =>
    split_ifs at h with h1 h2 h3 h4 <;>
    first
      | (cases h; rfl)
      | (obtain ⟨s3, hs3, rfl⟩ := except_map_ok h; exact (saveField_ok hs3).1)
      | simp at h

theorem feedAll_lineNum {d : Dialect} {b : Bool} :
    ∀ {cs : List Char} {s s2 : ReaderState},
      feedAll d b cs s = Except.ok s2 → s2.lineNum = s.lineNum := by
  intro cs
  induction cs with
  | nil => intro s s2 h; cases h; rfl
  | cons c cs ih =>
    intro s s2 h
    unfold feedAll at h
    cases hp : processChar d c true b s with
    | error e => rw [hp] at h; cases h
    | ok s3 =>
      rw [hp] at h
      exact (ih h).trans (processChar_lineNum hp)

theorem processLine_nul (d : Dialect) (lhn : Bool) (post : List Char) :
    ∀ (pre : List Char) (s : ReaderState), (∀ c ∈ pre, c ≠ '\x00') →
      processLine d lhn (pre ++ '\x00' :: post) s =
        (feedAll d lhn pre s).bind
          (fun s2 => Except.error (readerError "line contains NULL byte" s2.lineNum)) := by
  intro pre
  induction pre with
  | nil =>
    intro s hpre
    simp only [List.nil_append, processLine, if_pos rfl, feedAll]
    rfl
  | cons c cs ih =>
    intro s hpre
    have hc : c ≠ '\x00' := hpre c (List.mem_cons_self c cs)
    simp only [List.cons_append, processLine, if_neg hc, feedAll]
    have hb : (!((cs.append ('\x00' :: post)).isEmpty)) = true := by simp
    rw [hb]
    cases hp : processChar d c true lhn s with
    | error e => rfl
    | ok s3 =>
      exact ih s3 (fun x hx => hpre x (List.mem_cons_of_mem c hx))

/-- Claim C7 (amended): the NUL-byte check is applied per character as the
line is scanned, not up front. Characters preceding the first NUL byte are
fed to the transition function one by one (each seeing a non-exhausted
character lookahead); if none of them throws, the scan stops at the NUL
byte with `line contains NULL byte, at line <n>` carrying the line number
current when the line was consumed (character processing never changes
it). A character preceding the NUL may therefore change the parser state or
raise a different error first. -/
theorem claim_C7 (d : Dialect) (lhn : Bool) (pre post : List Char) (s : ReaderState)
    (hpre : ∀ c ∈ pre, c ≠ '\x00') :
    processLine d lhn (pre ++ '\x00' :: post) s =
      (feedAll d lhn pre s).bind
        (fun s2 => Except.error (readerError "line contains NULL byte" s2.lineNum)) ∧
    (∀ s2, feedAll d lhn pre s = Except.ok s2 → s2.lineNum = s.lineNum) :=
  ⟨processLine_nul d lhn post pre s hpre, fun _ h => feedAll_lineNum h⟩

/-- Witness for C7: on the line `a<NUL>`, the character `a` is processed
first and the failure is reported when the NUL byte is reached. -/
theorem claim_C7_witness :
    processLine excel false (['a'] ++ '\x00' :: []) initState =
      Except.error (readerError "line contains NULL byte" 0) := by
  have h := (claim_C7 excel false ['a'] [] initState (by decide)).1
  rw [h]
  rfl

/-- Counterexample for C7 as stated: in the line built from `x,<NUL>`, the
characters before the NUL byte are fed to the FSM first, and under
NON_NUMERIC quoting the delimiter completes the field `x` whose numeric
conversion fails — so the reader reports the number-conversion error, not
the NULL-byte error the claim mandates. -/
theorem claim_C7_cex :
    mkLines ("x,\x00".data) = [['x', ',', '\x00', '\n']] ∧
    readAll { excel with quoting := Quoting.NON_NUMERIC } "x,\x00" =
      Except.error "could not convert string to number: x, at line 1" ∧
    "could not convert string to number: x, at line 1" ≠
      "line contains NULL byte, at line 1" :=
  ⟨rfl, rfl, by decide⟩

theorem processLine_lineNum {d : Dialect} {b : Bool} :
    ∀ {cs : List Char} {s s2 : ReaderState},
      processLine d b cs s = Except.ok s2 → s2.lineNum = s.lineNum := by
  intro cs
  induction cs with
  | nil => intro s s2 h; cases h; rfl
  | cons c cs ih =>
    intro s s2 h
    unfold processLine at h
    by_cases h1 : c = '\x00'
    · rw [if_pos h1] at h
      cases h
    · rw [if_neg h1] at h
      cases hp : processChar d c (!cs.isEmpty) b s with
      | error e => rw [hp] at h; cases h
      | ok s3 =>
        rw [hp] at h
        exact (ih h).trans (processChar_lineNum hp)

theorem nextLoop_lineNum {d : Dialect} :
    ∀ {lines : List (List Char)} {s : ReaderState} {res : NextRes}
      {rest : List (List Char)} {s2 : ReaderState},
      nextLoop d lines s = Except.ok (res, rest, s2) →
      s2.lineNum = s.lineNum + (lines.length - rest.length) ∧
        rest.length ≤ lines.length := by
  intro lines
  induction lines with
  | nil =>
    intro s res rest s2 h
    unfold nextLoop at h
    by_cases h1 : s.field.length ≠ 0 ∨ s.state = ParserState.IN_QUOTED_FIELD
    · rw [if_pos h1] at h
      by_cases h2 : d.strict
      · rw [if_pos h2] at h
        cases h
      · rw [if_neg h2] at h
        obtain ⟨s3, hs3, heq⟩ := except_map_ok h
        simp only [Prod.mk.injEq] at heq
        obtain ⟨rfl, rfl, rfl⟩ := heq
        simp [(saveField_ok hs3).1]
    · rw [if_neg h1] at h
      simp only [Except.ok.injEq, Prod.mk.injEq] at h
      obtain ⟨rfl, rfl, rfl⟩ := h
      simp
  | cons line restL ih =>
    intro s res rest s2 h
    unfold nextLoop at h
    dsimp only at h
    cases hp : processLine d (!restL.isEmpty) line
        { s with lineNum := s.lineNum + 1 } with
    | error e => rw [hp] at h; cases h
    | ok s3 =>
      rw [hp] at h
      dsimp only at h
      have h4 : s3.lineNum = s.lineNum + 1 := processLine_lineNum hp
      by_cases h5 : s3.state = ParserState.START_RECORD
      · rw [if_pos h5] at h
        simp only [Except.ok.injEq, Prod.mk.injEq] at h
        obtain ⟨rfl, rfl, rfl⟩ := h
        constructor
        · show s3.lineNum = s.lineNum + ((line :: restL).length - restL.length)
          simp only [List.length_cons]
          omega
        · simp
      · rw [if_neg h5] at h
        obtain ⟨h6, h7⟩ := ih h
        constructor
        · rw [h6, h4]
          simp only [List.length_cons]
          omega
        · simp only [List.length_cons]
          omega

/-- Claim C6 (amended): the line counter starts at 0, is not touched by the
per-row reset, and whenever `next()` succeeds it has grown by exactly the
number of physical lines consumed during that call (the remaining line list
shrinks by that amount and never grows) — hence it is monotonically
non-decreasing and never reset. Over `"line,1\r\nline,2\r\nline,3"` the
counter reads 1, 2 and 3 after the three row pulls and stays 3 after the
final exhausted pull. -/
theorem claim_C6 :
    initState.lineNum = 0 ∧
    (∀ s : ReaderState, (resetState s).lineNum = s.lineNum) ∧
    (∀ (d : Dialect) (lines : List (List Char)) (s : ReaderState)
      (res : NextRes) (rest : List (List Char)) (s2 : ReaderState),
      nextLoop d lines s = Except.ok (res, rest, s2) →
      s2.lineNum = s.lineNum + (lines.length - rest.length) ∧
        rest.length ≤ lines.length) ∧
    readerNext excel (mkLines ("line,1\r\nline,2\r\nline,3".data)) initState =
      Except.ok ({ value := [Field.str "line", Field.str "1"], done := false },
        ["line,2\n".data, "line,3\n".data],
        { fields := [], field := [], numericField := false
          state := ParserState.START_RECORD, lineNum := 1 }) ∧
    readerNext excel ["line,2\n".data, "line,3\n".data]
        { fields := [], field := [], numericField := false
          state := ParserState.START_RECORD, lineNum := 1 } =
      Except.ok ({ value := [Field.str "line", Field.str "2"], done := false },
        ["line,3\n".data],
        { fields := [], field := [], numericField := false
          state := ParserState.START_RECORD, lineNum := 2 }) ∧
    readerNext excel ["line,3\n".data]
        { fields := [], field := [], numericField := false
          state := ParserState.START_RECORD, lineNum := 2 } =
      Except.ok ({ value := [Field.str "line", Field.str "3"], done := false }, [],
        { fields := [], field := [], numericField := false
          state := ParserState.START_RECORD, lineNum := 3 }) ∧
    readerNext excel []
        { fields := [], field := [], numericField := false
          state := ParserState.START_RECORD, lineNum := 3 } =
      Except.ok ({ value := [], done := true }, [],
        { fields := [], field := [], numericField := false
          state := ParserState.START_RECORD, lineNum := 3 }) :=
  ⟨rfl, fun _ => rfl, fun _ _ _ _ _ _ h => nextLoop_lineNum h, rfl, rfl, rfl, rfl⟩

/-- Witness for C6: the general counter law applied to an exhausted pull. -/
theorem claim_C6_witness :
    initState.lineNum =
      initState.lineNum + (([] : List (List Char)).length - ([] : List (List Char)).length) ∧
    ([] : List (List Char)).length ≤ ([] : List (List Char)).length :=
  claim_C6.2.2.1 excel [] initState { value := [], done := true } [] initState rfl

/-- Counterexample for C6 as stated: after the first pull over
`"line,1\r\nline,2\r\nline,3"` the line counter is 1, not 3, so it does not
"equal 3 after each pull". -/
theorem claim_C6_cex :
    readerNext excel (mkLines ("line,1\r\nline,2\r\nline,3".data)) initState =
      Except.ok ({ value := [Field.str "line", Field.str "1"], done := false },
        ["line,2\n".data, "line,3\n".data],
        { fields := [], field := [], numericField := false
          state := ParserState.START_RECORD, lineNum := 1 }) ∧
    (1 : ℕ) ≠ 3 :=
  ⟨rfl, by decide⟩

theorem splitLinesAux_shape (acc cs : List Char) :
    (∀ c ∈ acc, c ≠ '\r' ∧ c ≠ '\n') →
    ∀ l ∈ splitLinesAux acc cs,
      ∃ pre, (∀ c ∈ pre, c ≠ '\r' ∧ c ≠ '\n') ∧
        (l = pre ++ ['\r', '\n'] ∨ l = pre ++ ['\r'] ∨ l = pre ++ ['\n']) := by
  induction acc, cs using splitLinesAux.induct with
  | case1 acc =>
    intro hacc l hl
    simp [splitLinesAux] at hl
  | case2 acc rest ih =>
    intro hacc l hl
    simp only [splitLinesAux, List.mem_cons] at hl
    rcases hl with rfl | hl
    · exact ⟨acc, hacc, Or.inl rfl⟩
    · exact ih (by simp) l hl
  | case3 acc rest hne ih =>
    intro hacc l hl
    simp only [splitLinesAux, List.mem_cons] at hl
    rcases hl with rfl | hl
    · exact ⟨acc, hacc, Or.inr (Or.inl rfl)⟩
    · exact ih (by simp) l hl
  | case4 acc rest ih =>
    intro hacc l hl
    simp only [splitLinesAux, List.mem_cons] at hl
    rcases hl with rfl | hl
    · exact ⟨acc, hacc, Or.inr (Or.inr rfl)⟩
    · exact ih (by simp) l hl
  | case5 acc c rest h1 h2 h3 ih =>
    intro hacc l hl
    have hc1 : c ≠ '\r' := fun hc => h2 hc
    have hc2 : c ≠ '\n' := fun hc => h3 hc
    rw [splitLinesAux] at hl
    case x_1 => exact h1
    case x_2 => exact h2
    case x_3 => exact h3
    have hacc2 : ∀ x ∈ acc ++ [c], x ≠ '\r' ∧ x ≠ '\n' := by
      intro x hx
      rcases List.mem_append.mp hx with hx | hx
      · exact hacc x hx
      · simp at hx
        subst hx
        exact ⟨hc1, hc2⟩
    exact ih hacc2 l hl

theorem norm_crlf (pre : List Char) :
    normalizeLine (pre ++ ['\r', '\n']) = pre ++ ['\n'] := by
  unfold normalizeLine
  rw [show (pre ++ ['\r', '\n']).reverse = '\n' :: '\r' :: pre.reverse from by simp]
  simp

theorem norm_keep (l : List Char) (h : ∀ rest, l.reverse ≠ '\n' :: '\r' :: rest) :
    normalizeLine l = l := by
  unfold normalizeLine
  split
  · next rest heq => exact absurd heq (h rest)
  · rfl

theorem mkLines_shape (source : List Char) :
    ∀ l ∈ mkLines source, l ≠ [] ∧
      (l.getLast? = some '\n' ∨ l.getLast? = some '\r') ∧
      ∀ c ∈ l.dropLast, c ≠ '\n' ∧ c ≠ '\r' := by
  intro l hl
  obtain ⟨l0, hl0, rfl⟩ := List.mem_map.mp hl
  obtain ⟨pre, hpre, hcase⟩ :=
    splitLinesAux_shape [] (appendNewline source) (by simp) l0 hl0
  rcases hcase with rfl | rfl | rfl
  · rw [norm_crlf]
    refine ⟨by simp, Or.inl (by simp), ?_⟩
    rw [List.dropLast_concat]
    intro c hc
    exact ⟨(hpre c hc).2, (hpre c hc).1⟩
  · rw [norm_keep]
    · refine ⟨by simp, Or.inr (by simp), ?_⟩
      rw [List.dropLast_concat]
      intro c hc
      exact ⟨(hpre c hc).2, (hpre c hc).1⟩
    · intro rest heq
      rw [show (pre ++ ['\r']).reverse = '\r' :: pre.reverse from by simp] at heq
      exact absurd (List.head_eq_of_cons_eq heq) (by decide)
  · rw [norm_keep]
    · refine ⟨by simp, Or.inl (by simp), ?_⟩
      rw [List.dropLast_concat]
      intro c hc
      exact ⟨(hpre c hc).2, (hpre c hc).1⟩
    · intro rest heq
      rw [show (pre ++ ['\n']).reverse = '\n' :: pre.reverse from by simp] at heq
      have h2 := List.tail_eq_of_cons_eq heq
      have h3 : '\r' ∈ pre.reverse := by rw [h2]; exact List.mem_cons_self _ _
      exact (hpre '\r' (List.mem_reverse.mp h3)).1 rfl

/-- Claim C5 (amended): a trailing newline is appended iff the source is
non-empty and does not already end with `\n`; the source is split at each
`\r\n`, `\r` or `\n`, the terminator staying at the end of its line, and a
captured `\r\n` is normalized to a single `\n` — but a lone `\r`
terminator is kept as `\r`, so each line the FSM consumes is non-empty,
ends with `\n` or `\r` (both of which the FSM treats as end-of-record),
and contains no other newline or carriage-return characters. -/
theorem claim_C5 (source : List Char) :
    (source ≠ [] → source.getLast? ≠ some '\n' → appendNewline source = source ++ ['\n']) ∧
    (source = [] ∨ source.getLast? = some '\n' → appendNewline source = source) ∧
    (∀ l ∈ mkLines source, l ≠ [] ∧
      (l.getLast? = some '\n' ∨ l.getLast? = some '\r') ∧
      ∀ c ∈ l.dropLast, c ≠ '\n' ∧ c ≠ '\r') ∧
    mkLines ("a\r\nb".data) = [['a', '\n'], ['b', '\n']] := by
  refine ⟨?_, ?_, mkLines_shape source, rfl⟩
  · intro h1 h2
    unfold appendNewline
    rw [if_pos ⟨h1, h2⟩]
  · intro h
    unfold appendNewline
    rw [if_neg]
    rcases h with h | h
    · intro hc
      exact hc.1 h
    · intro hc
      exact hc.2 h

/-- Witness for C5: the source `a` gets a newline appended and yields the
single line `a\n`, which ends with the newline character. -/
theorem claim_C5_witness :
    appendNewline ("a".data) = "a".data ++ ['\n'] ∧
    (['a', '\n'] : List Char) ≠ [] ∧
    (['a', '\n'] : List Char).getLast? = some '\n' :=
  ⟨(claim_C5 ("a".data)).1 (by decide) (by decide),
   by decide,
   by decide⟩

/-- Counterexample for C5 as stated: splitting `a\rb` captures the lone
`\r` terminator, which is not normalized to `\n` — the first consumed line
is `a\r`, ending in `\r`, not in the claimed `\n`. -/
theorem claim_C5_cex :
    mkLines ("a\rb".data) = [['a', '\r'], ['b', '\n']] ∧
    (['a', '\r'] : List Char).getLast? = some '\r' ∧
    ('\r' : Char) ≠ '\n' :=
  ⟨rfl, rfl, by decide⟩

/-- Claim C4 (amended): under NON_NUMERIC quoting, a field that starts
unquoted with an ordinary character — one that is not an end-of-record
character, not the quote character, not the escape character, not a skipped
initial space and not the delimiter — is marked numeric (a field begun by
the escape character is not marked). At field completion a numeric-marked
field's text is converted with `Number`, a failed conversion raising
`could not convert string to number: <text>, at line <n>`; a field not
marked numeric keeps its text as a string. Reading `,3,"5",7.3, 9` under
the excel dialect with NON_NUMERIC quoting yields the single row
`['', 3, '5', 7.3, 9]`. -/
theorem claim_C4 :
    (∀ (d : Dialect) (c : Char) (chn lhn : Bool) (s : ReaderState),
      s.state = ParserState.START_FIELD →
      d.quoting = Quoting.NON_NUMERIC →
      endOfRecord c = false →
      d.quoteChar ≠ some c →
      d.escapeChar ≠ some c →
      ¬(c = ' ' ∧ d.skipInitialSpace) →
      c ≠ d.delimiter →
      processChar d c chn lhn s =
        Except.ok { s with numericField := true, field := s.field ++ [c], state := ParserState.IN_FIELD }) ∧
    (∀ s : ReaderState, s.numericField = true → jsNumber s.field = none →
      saveField s = Except.error
        (readerError ("could not convert string to number: " ++ String.mk s.field)
          s.lineNum)) ∧
    (∀ (s : ReaderState) (q : ℚ), s.numericField = true → jsNumber s.field = some q →
      saveField s = Except.ok { s with numericField := false, fields := s.fields ++ [Field.num q], field := [] }) ∧
    (∀ s : ReaderState, s.numericField = false →
      saveField s = Except.ok
        { s with fields := s.fields ++ [Field.str (String.mk s.field)], field := [] }) ∧
    readAll { excel with quoting := Quoting.NON_NUMERIC } ",3,\"5\",7.3, 9" =
      Except.ok [[Field.str "", Field.num (mkRat 3 1), Field.str "5",
        Field.num (mkRat 73 10), Field.num (mkRat 9 1)]] ∧
    (mkRat 3 1 : ℚ) = 3 ∧ (mkRat 73 10 : ℚ) = 7.3 ∧ (mkRat 9 1 : ℚ) = 9 := by
  refine ⟨?_, ?_, ?_, ?_, rfl, by norm_num [Rat.mkRat_eq_div], by norm_num [Rat.mkRat_eq_div],
    by norm_num [Rat.mkRat_eq_div]⟩
  · intro d c chn lhn s hst hq he hqc hesc hsp hdel
    rcases s with ⟨fs, fld, nf, st, ln⟩
    obtain rfl : st = ParserState.START_FIELD := hst
    simp [processChar, stepStartField, hq, he, hqc, hesc, hsp, hdel]
  · intro s hn hj
    simp [saveField, hn, hj]
  · intro s q hn hj
    simp [saveField, hn, hj]
  · intro s hn
    simp [saveField, hn]

/-- Witness for C4: the digit `7` starting an unquoted field under
NON_NUMERIC quoting marks the field numeric and enters `IN_FIELD`. -/
theorem claim_C4_witness :
    processChar { excel with quoting := Quoting.NON_NUMERIC } '7' true true
        { fields := [], field := [], numericField := false
          state := ParserState.START_FIELD, lineNum := 1 } =
      Except.ok
        { fields := [], field := ['7'], numericField := true
          state := ParserState.IN_FIELD, lineNum := 1 } :=
  claim_C4.1 { excel with quoting := Quoting.NON_NUMERIC } '7' true true
    { fields := [], field := [], numericField := false
      state := ParserState.START_FIELD, lineNum := 1 }
    rfl rfl (by decide) (by decide) (by decide) (by decide) (by decide)

/-- Counterexample for C4 as stated: with NON_NUMERIC quoting and escape
character `\\`, the source `\\3` yields the single row `['3']` — a field
that started unquoted (with the escape character) is not marked numeric and
its text stays a string instead of being converted to the number 3. -/
theorem claim_C4_cex :
    readAll { excel with quoting := Quoting.NON_NUMERIC, escapeChar := some '\\' }
        "\\3" =
      Except.ok [[Field.str "3"]] ∧
    Field.str "3" ≠ Field.num 3 :=
  ⟨rfl, by decide⟩

theorem zip_map_fst {κ ν : Type} :
    ∀ (ks : List κ) (vs : List ν), (zip ks vs).map Prod.fst = ks := by
  intro ks
  induction ks with
  | nil => intro vs; cases vs <;> rfl
  | cons k ks ih =>
    intro vs
    cases vs with
    | nil => simp [zip, ih]
    | cons v vs => simp [zip, ih]

theorem upsert_fresh {κ ν : Type} [DecidableEq κ] (acc : List (κ × ν)) (kv : κ × ν)
    (h : ∀ p ∈ acc, p.1 ≠ kv.1) : upsert acc kv = acc ++ [kv] := by
  have ha : acc.any (fun p => p.1 = kv.1) = false := by
    rw [List.any_eq_false]
    intro p hp
    simp [h p hp]
  simp [upsert, ha]

theorem foldl_upsert_app {κ ν : Type} [DecidableEq κ] :
    ∀ (l acc : List (κ × ν)),
      (∀ p ∈ acc, ∀ q ∈ l, p.1 ≠ q.1) → (l.map Prod.fst).Nodup →
      l.foldl upsert acc = acc ++ l := by
  intro l
  induction l with
  | nil => intro acc _ _; simp
  | cons kv l ih =>
    intro acc hdisj hnd
    have h1 : upsert acc kv = acc ++ [kv] :=
      upsert_fresh acc kv (fun p hp => hdisj p hp kv (List.mem_cons_self kv l))
    simp only [List.foldl_cons, h1]
    rw [ih (acc ++ [kv]) ?_ ?_]
    · simp
    · intro p hp q hq
      rcases List.mem_append.mp hp with hp | hp
      · exact hdisj p hp q (List.mem_cons_of_mem kv hq)
      · simp at hp
        subst hp
        simp only [List.map_cons, List.nodup_cons] at hnd
        intro he
        exact hnd.1 (he ▸ List.mem_map_of_mem Prod.fst hq)
    · simp only [List.map_cons, List.nodup_cons] at hnd
      exact hnd.2

theorem fromEntries_nodup {κ ν : Type} [DecidableEq κ] (l : List (κ × ν))
    (h : (l.map Prod.fst).Nodup) : fromEntries l = l := by
  have h2 := foldl_upsert_app l [] (by simp) h
  simpa [fromEntries] using h2

theorem recLookup_zip {κ ν : Type} [DecidableEq κ] :
    ∀ (ks : List κ) (vs : List ν), ks.Nodup →
      ∀ i, (hi : i < ks.length) →
        recLookup ks[i] (zip ks vs) = some vs[i]? := by
  intro ks
  induction ks with
  | nil => intro vs _ i hi; simp at hi
  | cons k ks ih =>
    intro vs hnd i hi
    cases i with
    | zero =>
      cases vs with
      | nil => simp [zip, recLookup]
      | cons v vs => simp [zip, recLookup]
    | succ i =>
      have hi2 : i < ks.length := by simpa using hi
      have hne : k ≠ (k :: ks)[i + 1] := by
        have hmem : (k :: ks)[i + 1] ∈ ks := by
          rw [List.getElem_cons_succ]
          exact List.getElem_mem hi2
        intro he
        exact (List.nodup_cons.mp hnd).1 (he ▸ hmem)
      cases vs with
      | nil =>
        simp only [zip, recLookup]
        rw [if_neg hne]
        have := ih [] (List.nodup_cons.mp hnd).2 i hi2
        simpa using this
      | cons v vs =>
        simp only [zip, recLookup]
        rw [if_neg hne]
        have := ih vs (List.nodup_cons.mp hnd).2 i hi2
        simpa using this

theorem recLookup_zip_append {κ ν : Type} [DecidableEq κ] (k : κ) :
    ∀ (ks : List κ) (vs : List ν), k ∉ ks →
      recLookup k (zip (ks ++ [k]) vs) = some vs[ks.length]? := by
  intro ks
  induction ks with
  | nil =>
    intro vs _
    cases vs with
    | nil => simp [zip, recLookup]
    | cons v vs => simp [zip, recLookup]
  | cons k2 ks ih =>
    intro vs hk
    have hne : k2 ≠ k := fun he => hk (he ▸ List.mem_cons_self k2 ks)
    cases vs with
    | nil =>
      simp only [List.cons_append, zip, recLookup]
      rw [if_neg hne]
      have := ih [] (fun hm => hk (List.mem_cons_of_mem k2 hm))
      simpa using this
    | cons v vs =>
      simp only [List.cons_append, zip, recLookup]
      rw [if_neg hne]
      have := ih vs (fun hm => hk (List.mem_cons_of_mem k2 hm))
      simpa using this

/-- Claim C8: `recordReader` maps rows to records: header names come from
the explicit fields option when given, otherwise from the first emitted
row; an empty row yields no record; a row longer than the headers maps its
first `h` values positionally and gathers the surplus as an array under the
rest key (default key "undefined"); a row shorter than the headers maps
positionally and each missing header takes the rest value (default the
empty string); an equal-length row maps positionally. Stated for records
with distinct keys (the mapping-from-header-names reading); the concrete
conjuncts exercise both header sources and both defaults. -/
theorem claim_C8 (headers : List Field) (restKey : Option String) (restVal : Option Field)
    (row : Row) :
    recordRow headers restKey restVal [] = none ∧
    (∀ (hrow : row ≠ []) (hlong : headers.length < row.length)
      (hnd : (headers ++ [Field.str (recordRow.optStrStr restKey)]).Nodup),
      recordRow headers restKey restVal row =
        some (zip (headers ++ [Field.str (recordRow.optStrStr restKey)])
          ((row.take headers.length).map RecordValue.field ++
            [RecordValue.arr (row.drop headers.length)])) ∧
      recLookup (Field.str (recordRow.optStrStr restKey))
          (zip (headers ++ [Field.str (recordRow.optStrStr restKey)])
            ((row.take headers.length).map RecordValue.field ++
              [RecordValue.arr (row.drop headers.length)])) =
        some (some (RecordValue.arr (row.drop headers.length))) ∧
      ∀ i, (hi : i < headers.length) →
        recLookup (headers.get ⟨i, hi⟩)
            (zip (headers ++ [Field.str (recordRow.optStrStr restKey)])
              ((row.take headers.length).map RecordValue.field ++
                [RecordValue.arr (row.drop headers.length)])) =
          some (some (RecordValue.field (row.get ⟨i, Nat.lt_trans hi hlong⟩)))) ∧
    (∀ (hrow : row ≠ []) (hshort : row.length < headers.length)
      (hnd : headers.Nodup),
      recordRow headers restKey restVal row =
        some (zip headers
          ((row ++ List.replicate (headers.length - row.length)
            (restVal.getD (Field.str ""))).map RecordValue.field)) ∧
      ∀ i, (hi : i < headers.length) → row.length ≤ i →
        recLookup (headers.get ⟨i, hi⟩)
            (zip headers
              ((row ++ List.replicate (headers.length - row.length)
                (restVal.getD (Field.str ""))).map RecordValue.field)) =
          some (some (RecordValue.field (restVal.getD (Field.str ""))))) ∧
    (∀ (hrow : row ≠ []) (hlen : row.length = headers.length)
      (hnd : headers.Nodup),
      recordRow headers restKey restVal row =
        some (zip headers (row.map RecordValue.field)) ∧
      ∀ i, (hi : i < headers.length) →
        recLookup (headers.get ⟨i, hi⟩) (zip headers (row.map RecordValue.field)) =
          some (some (RecordValue.field (row.get ⟨i, hlen ▸ hi⟩)))) ∧
    recordReaderModel excel "a,b\r\n1,2" none none none =
      Except.ok [[(Field.str "a", some (RecordValue.field (Field.str "1"))),
        (Field.str "b", some (RecordValue.field (Field.str "2")))]] ∧
    recordReaderModel excel "1,2" (some ["a", "c"]) none none =
      Except.ok [[(Field.str "a", some (RecordValue.field (Field.str "1"))),
        (Field.str "c", some (RecordValue.field (Field.str "2")))]] ∧
    recordReaderModel excel "a\r\n1,2" none none none =
      Except.ok [[(Field.str "a", some (RecordValue.field (Field.str "1"))),
        (Field.str "undefined", some (RecordValue.arr [Field.str "2"]))]] ∧
    recordReaderModel excel "a,b\r\n1" none none none =
      Except.ok [[(Field.str "a", some (RecordValue.field (Field.str "1"))),
        (Field.str "b", some (RecordValue.field (Field.str "")))]] := by
  have hofe : ∀ (ks : List Field) (vals : List RecordValue), ks.Nodup →
      fromEntries (zip ks vals) = zip ks vals := by
    intro ks vals hnd
    exact fromEntries_nodup _ (by rw [zip_map_fst]; exact hnd)
  refine ⟨rfl, ?_, ?_, ?_, rfl, rfl, rfl, rfl⟩
  · intro hrow hlong hnd
    have h0 : row.length ≠ 0 := fun h => hrow (List.length_eq_zero.mp h)
    have htl : ((row.take headers.length).map RecordValue.field).length = headers.length := by
      simp [List.length_take]
      omega
    refine ⟨?_, ?_, ?_⟩
    · unfold recordRow
      rw [if_pos h0, if_pos hlong, hofe _ _ hnd]
    · have hk : Field.str (recordRow.optStrStr restKey) ∉ headers := by
        intro hm
        exact (List.nodup_append.mp hnd).2.2 hm (by simp)
      rw [recLookup_zip_append _ headers _ hk]
      rw [List.getElem?_append_right (by omega)]
      have hz : ((row.take headers.length).map RecordValue.field).length -
          ((row.take headers.length).map RecordValue.field).length = 0 := by omega
      rw [show headers.length - ((row.take headers.length).map RecordValue.field).length = 0
        from by simp [List.length_take]; omega]
      rfl
    · intro i hi
      have hi2 : i < (headers ++ [Field.str (recordRow.optStrStr restKey)]).length := by
        simp
        omega
      have h1 := recLookup_zip (headers ++ [Field.str (recordRow.optStrStr restKey)])
        ((row.take headers.length).map RecordValue.field ++
          [RecordValue.arr (row.drop headers.length)]) hnd i hi2
      rw [List.getElem_append_left hi] at h1
      refine h1.trans ?_
      rw [List.getElem?_append]
      rw [if_pos (by simp [List.length_take]; omega)]
      rw [List.getElem?_map, List.getElem?_take]
      rw [if_pos (by omega)]
      rw [List.getElem?_eq_getElem (by omega)]
      rfl
  · intro hrow hshort hnd
    have h0 : row.length ≠ 0 := fun h => hrow (List.length_eq_zero.mp h)
    refine ⟨?_, ?_⟩
    · unfold recordRow
      rw [if_pos h0, if_neg (by omega), if_pos (by omega)]
      cases restVal <;> (dsimp only; rw [hofe _ _ hnd]; rfl)
    · intro i hi hge
      have h1 := recLookup_zip headers
        ((row ++ List.replicate (headers.length - row.length)
          (restVal.getD (Field.str ""))).map RecordValue.field) hnd i hi
      refine h1.trans ?_
      rw [List.getElem?_map, List.getElem?_append_right (by omega)]
      rw [List.getElem?_eq_getElem (by simp; omega)]
      rw [List.getElem_replicate]
      rfl
  · intro hrow hlen hnd
    have h0 : row.length ≠ 0 := fun h => hrow (List.length_eq_zero.mp h)
    refine ⟨?_, ?_⟩
    · unfold recordRow
      rw [if_pos h0, if_neg (by omega), if_neg (by omega)]
      rw [hofe _ _ hnd]
    · intro i hi
      have h1 := recLookup_zip headers (row.map RecordValue.field) hnd i hi
      refine h1.trans ?_
      rw [List.getElem?_map, List.getElem?_eq_getElem (by omega)]
      rfl

/-- Witness for C8: one header `a` against row `['1','2']` maps `a` to `'1'`
and gathers the surplus `['2']` under the default rest key "undefined". -/
theorem claim_C8_witness :
    recordRow [Field.str "a"] none none [Field.str "1", Field.str "2"] =
      some [(Field.str "a", some (RecordValue.field (Field.str "1"))),
        (Field.str "undefined", some (RecordValue.arr [Field.str "2"]))] :=
  ((claim_C8 [Field.str "a"] none none [Field.str "1", Field.str "2"]).2.1
    (by decide) (by decide) (by decide)).1

end TsCsv
